import Mathlib

/-!
Shallow embedding of the cv2csv resume-extraction pipeline
(src/app.py and src/cv2con.py) together with theorems that check the
specification's claims about it. Python dicts are modelled as
insertion-ordered association lists, machine strings as Lean strings,
the external generation service as an oracle function, every caught
fallible step as an Option, and the one uncaught exception of the batch
loop as an aborting outcome.
-/

namespace CV2CSV

/-- JSON values as json.loads returns them: strings, integers, floats
(kept as their literal text, since the program only stores and exports
them and never computes with them), booleans, null, arrays and objects.
A Python dict is an insertion-ordered association list without
duplicate keys. -/
inductive JValue where
  | str (s : String)
  | num (n : Int)
  | float (lit : String)
  | bool (b : Bool)
  | null
  | arr (l : List JValue)
  | obj (d : List (String × JValue))

/-- A Python dict (string-keyed mapping) as an insertion-ordered
association list without duplicate keys. -/
abbrev JObj := List (String × JValue)

/-- Python dict assignment d[k] = v: replaces the value in place when the
key exists (keeping its position) and appends the pair otherwise. -/
def dictSet : JObj → String → JValue → JObj
  | [], k, v => [(k, v)]
  | p :: ps, k, v => if p.1 = k then (k, v) :: ps else p :: dictSet ps k v

/-- Python dict lookup, as an Option. -/
def dictGet? (d : JObj) (k : String) : Option JValue :=
  (d.find? (fun p => decide (p.1 = k))).map (fun p => p.2)

/-- The whitespace characters stripped by Python str.strip and skipped
by json.loads. -/
def isWsChar (c : Char) : Bool :=
  c == ' ' || c == '\t' || c == '\n' || c == '\r'

/-- Drop leading whitespace. -/
def skipWs (s : List Char) : List Char := s.dropWhile isWsChar

/-- Python str.strip on a character list: drop leading and trailing
whitespace. -/
def trimWs (s : List Char) : List Char :=
  ((s.dropWhile isWsChar).reverse.dropWhile isWsChar).reverse

/-- The JSON string escapes accepted by this model of json.loads. -/
def escChar (c : Char) : Option Char :=
  if c = '"' then some '"'
  else if c = '\\' then some '\\'
  else if c = '/' then some '/'
  else if c = 'n' then some '\n'
  else if c = 't' then some '\t'
  else if c = 'r' then some '\r'
  else none

/-- The numeric value of a hexadecimal digit. -/
def hexVal (c : Char) : Option Nat :=
  if c.isDigit then some (c.toNat - 48)
  else if 'a' ≤ c ∧ c ≤ 'f' then some (c.toNat - 87)
  else if 'A' ≤ c ∧ c ≤ 'F' then some (c.toNat - 55)
  else none

/-- Scan a JSON string body (the cursor standing after the opening
quote); returns the decoded characters and the input after the closing
quote. Handles the single-character escapes and the four-hex-digit
unicode escape. Fuelled for termination; a fuel of the input length
suffices. -/
def parseJStr : Nat → List Char → Option (List Char × List Char)
  | 0, _ => none
  | _, [] => none
  | Nat.succ fuel, c :: rest =>
    if c = '"' then some ([], rest)
    else if c = '\\' then
      match rest with
      | [] => none
      | 'u' :: h1 :: h2 :: h3 :: h4 :: rest2 =>
        match hexVal h1, hexVal h2, hexVal h3, hexVal h4 with
        | some a, some b, some c2, some d =>
          match parseJStr fuel rest2 with
          | none => none
          | some (cs, r) =>
            some (Char.ofNat (((a * 16 + b) * 16 + c2) * 16 + d) :: cs, r)
        | _, _, _, _ => none
      | e :: rest2 =>
        match escChar e with
        | none => none
        | some ec =>
          match parseJStr fuel rest2 with
          | none => none
          | some (cs, r) => some (ec :: cs, r)
    else
      match parseJStr fuel rest with
      | none => none
      | some (cs, r) => some (c :: cs, r)

/-- The numeric value of a list of decimal digits. -/
def digitsToNat (ds : List Char) : Nat :=
  ds.foldl (fun a c => a * 10 + (c.toNat - 48)) 0

/-- Parse the digits of a number's exponent, the cursor standing after
the e marker; yields the exponent's literal characters. -/
def parseExpoDigits (e : Char) (s : List Char) : Option (List Char × List Char) :=
  match s with
  | '+' :: rest =>
    let ds := rest.takeWhile Char.isDigit
    if ds.isEmpty then none
    else some (e :: '+' :: ds, rest.dropWhile Char.isDigit)
  | '-' :: rest =>
    let ds := rest.takeWhile Char.isDigit
    if ds.isEmpty then none
    else some (e :: '-' :: ds, rest.dropWhile Char.isDigit)
  | _ =>
    let ds := s.takeWhile Char.isDigit
    if ds.isEmpty then none
    else some (e :: ds, s.dropWhile Char.isDigit)

/-- Parse an optional exponent part of a JSON number; yields its
literal characters, empty when absent. -/
def parseExpoPart (s : List Char) : Option (List Char × List Char) :=
  match s with
  | 'e' :: rest => parseExpoDigits 'e' rest
  | 'E' :: rest => parseExpoDigits 'E' rest
  | _ => some ([], s)

/-- Parse a JSON number: an integer yields an int value, a number with
a fraction or exponent part yields a float kept as its literal text.
Leading zeros are rejected as json.loads rejects them. -/
def parseJNum (s : List Char) : Option (JValue × List Char) :=
  let neg : Bool := match s with | '-' :: _ => true | _ => false
  let s1 : List Char := match s with | '-' :: rest => rest | _ => s
  let ds := s1.takeWhile Char.isDigit
  if ds.isEmpty then none
  else if 1 < ds.length ∧ ds.headD '0' = '0' then none
  else
    let r1 := s1.dropWhile Char.isDigit
    let fracpart : Option (List Char × List Char) :=
      match r1 with
      | '.' :: rest =>
        let fs := rest.takeWhile Char.isDigit
        if fs.isEmpty then none
        else some ('.' :: fs, rest.dropWhile Char.isDigit)
      | _ => some ([], r1)
    match fracpart with
    | none => none
    | some (fr, r2) =>
      match parseExpoPart r2 with
      | none => none
      | some (ex, r3) =>
        if fr.isEmpty ∧ ex.isEmpty then
          some (JValue.num (if neg then -(digitsToNat ds : Int)
                            else (digitsToNat ds : Int)), r3)
        else
          some (JValue.float
            (String.mk ((if neg then ['-'] else []) ++ ds ++ fr ++ ex)), r3)

mutual

/-- Parse one JSON value of any shape, the cursor standing on its first
character. Fuelled for termination; every recursive descent follows at
least one consumed character, so a fuel of the input length suffices. -/
def parseJValue : Nat → List Char → Option (JValue × List Char)
  | 0, _ => none
  | Nat.succ fuel, s =>
    match s with
    | '"' :: rest =>
      match parseJStr (rest.length + 1) rest with
      | none => none
      | some (cs, r) => some (JValue.str (String.mk cs), r)
    | '\x7b' :: rest =>
      match skipWs rest with
      | '\x7d' :: r2 => some (JValue.obj [], r2)
      | _ =>
        match parseJPairs fuel [] rest with
        | none => none
        | some (d, r) => some (JValue.obj d, r)
    | '[' :: rest =>
      match skipWs rest with
      | ']' :: r2 => some (JValue.arr [], r2)
      | _ =>
        match parseJItems fuel [] rest with
        | none => none
        | some (l, r) => some (JValue.arr l, r)
    | _ =>
      if "true".data.isPrefixOf s then some (JValue.bool true, s.drop 4)
      else if "false".data.isPrefixOf s then some (JValue.bool false, s.drop 5)
      else if "null".data.isPrefixOf s then some (JValue.null, s.drop 4)
      else parseJNum s

/-- Parse the members of a JSON object, the cursor standing before a
key; accumulates with Python dict-assignment semantics (a repeated key
keeps its first position and the last value). -/
def parseJPairs : Nat → JObj → List Char → Option (JObj × List Char)
  | 0, _, _ => none
  | Nat.succ fuel, acc, s =>
    match skipWs s with
    | '"' :: rest =>
      match parseJStr (rest.length + 1) rest with
      | none => none
      | some (key, r1) =>
        match skipWs r1 with
        | ':' :: r2 =>
          match parseJValue fuel (skipWs r2) with
          | none => none
          | some (v, r3) =>
            match skipWs r3 with
            | ',' :: r4 => parseJPairs fuel (dictSet acc (String.mk key) v) r4
            | '\x7d' :: r4 => some (dictSet acc (String.mk key) v, r4)
            | _ => none
        | _ => none
    | _ => none

/-- Parse the items of a JSON array, the cursor standing before an
item. -/
def parseJItems : Nat → List JValue → List Char → Option (List JValue × List Char)
  | 0, _, _ => none
  | Nat.succ fuel, acc, s =>
    match parseJValue fuel (skipWs s) with
    | none => none
    | some (v, r) =>
      match skipWs r with
      | ',' :: r2 => parseJItems fuel (acc ++ [v]) r2
      | ']' :: r2 => some (acc ++ [v], r2)
      | _ => none

end

/-- Model of Python json.loads: the whole input, up to surrounding
whitespace, must be one JSON value of any shape — object, array,
string, number, boolean or null all deserialize successfully, as the
real json.loads accepts them. -/
def json_loads (s : List Char) : Option JValue :=
  match parseJValue (s.length + 1) (skipWs s) with
  | none => none
  | some (v, r) => if (skipWs r).isEmpty then some v else none

/-- The fence-stripping step of parse_resume_with_gemma (src/app.py
lines 90-93): json_text[7:-3] when the text starts with the json-tagged
fence marker, json_text[3:-3] when it starts with the generic marker,
otherwise the text unchanged. Python s[a:-3] keeps the characters from
index a up to the length minus 3, clamped at empty. -/
def cleanJsonText (s : List Char) : List Char :=
  if "```json".data.isPrefixOf s then (s.take (s.length - 3)).drop 7
  else if "```".data.isPrefixOf s then (s.take (s.length - 3)).drop 3
  else s

/-- response.text.strip() followed by the fence stripping: the whole
string surgery applied to the raw service response. -/
def stripFence (s : List Char) : List Char := cleanJsonText (trimWs s)

/-- The response-to-value stage of parse_resume_with_gemma: strip
surrounding whitespace, remove the code fence, deserialize. The result
is whatever json.loads returns, of any JSON shape. -/
def parseResponse (s : List Char) : Option JValue := json_loads (stripFence s)

/-- Python truthiness of a deserialized JSON value: empty containers,
the empty string, numeric zero, false and null are falsy, everything
else truthy. -/
def pyTruthy : JValue → Bool
  | JValue.str s => !(s == "")
  | JValue.num n => !(n == 0)
  | JValue.float lit =>
    (lit.data.takeWhile (fun c => !(c == 'e' || c == 'E'))).any
      (fun c => c.isDigit && !(c == '0'))
  | JValue.bool b => b
  | JValue.null => false
  | JValue.arr l => !l.isEmpty
  | JValue.obj d => !d.isEmpty

/-- One user-configured field: internal name, extraction instruction for
the model, display label for the output column (src/app.py custom_fields
entries). -/
structure FieldDef where
  field_name : String
  descr : String
  column_name : String
deriving DecidableEq

/-- A message shown to the caller through st.warning / st.error /
st.success, the pipeline's caller-visible reporting channel. -/
inductive Event where
  | warning (msg : String)
  | error (msg : String)
  | success (msg : String)
deriving DecidableEq

/-- The message text of an event. -/
def msgOf : Event → String
  | Event.warning m => m
  | Event.error m => m
  | Event.success m => m

/-- An uploaded document: its filename, and the behaviour of the two
external extractor libraries on its bytes. pdfPages is what
page.extract_text() yields for each page of PyPDF2's reader, in page
order, none standing for a raised exception; docxText is what
docx2txt.process yields, none for a raised exception. Routing between
the two is by filename extension, as in the source. -/
structure UploadedFile where
  name : String
  pdfPages : List (Option String)
  docxText : Option String
deriving DecidableEq

/-- One iteration of the page loop of extract_text_from_pdf:
text += page.extract_text(), where a failed page or an already-failed
accumulator poisons the whole run (the raised exception is caught around
the loop). -/
def pdfStep (acc p : Option String) : Option String :=
  match acc, p with
  | some t, some s => some (t ++ s)
  | _, _ => none

/-- extract_text_from_pdf (src/cv2con.py lines 8-18): text = "" then
text += page.extract_text() over the pages in order; any page failure
raises, is caught, and the whole call yields none. -/
def extract_text_from_pdf (pages : List (Option String)) : Option String :=
  pages.foldl pdfStep (some "")

/-- extract_text_from_docx (src/cv2con.py lines 20-26): one whole-document
conversion, none when docx2txt raises. -/
def extract_text_from_docx (docxText : Option String) : Option String :=
  docxText

/-- Python str.lower on a Lean string (ASCII, as the filenames use). -/
def pyLower (s : String) : String := String.mk (s.data.map Char.toLower)

/-- Python str.strip on a Lean string. -/
def pyStrip (s : String) : String := String.mk (trimWs s.data)

/-- Python str.split(".") on a character list: groups between the dots,
empty groups kept; the empty string splits to one empty group. -/
def splitOnDot (s : List Char) : List (List Char) :=
  s.foldr
    (fun c acc =>
      if c = '.' then [] :: acc
      else
        match acc with
        | [] => [[c]]
        | g :: gs => (c :: g) :: gs)
    [[]]

/-- uploaded_file.name.lower().split(".")[-1] (src/app.py line 115). -/
def fileExtension (name : String) : String :=
  String.mk ((splitOnDot (pyLower name).data).getLastD [])

/-- The extension dispatch of the processing loop: pdf, or docx/doc,
or unsupported. -/
def supportedExt (e : String) : Prop :=
  e = "pdf" ∨ e = "docx" ∨ e = "doc"

instance (e : String) : Decidable (supportedExt e) := by
  unfold supportedExt; infer_instance

/-- The text the loop extracts from a file, following the extension
dispatch of src/app.py lines 115-123. -/
def extractedResumeText (f : UploadedFile) : Option String :=
  if fileExtension f.name = "pdf" then extract_text_from_pdf f.pdfPages
  else if fileExtension f.name = "docx" ∨ fileExtension f.name = "doc" then
    extract_text_from_docx f.docxText
  else none

/-- The st.error message the failing extractor shows (src/cv2con.py
lines 17 and 25); the exception text appended in the source is elided. -/
def readErrorMsg (f : UploadedFile) : String :=
  if fileExtension f.name = "pdf" then "Error reading PDF " ++ f.name
  else "Error reading DOCX " ++ f.name

/-- One prompt line per field: "- field_name: description"
(src/app.py line 46). -/
def fieldLine (f : FieldDef) : String :=
  "- " ++ f.field_name ++ ": " ++ f.descr

/-- The fixed extraction-policy instructions (src/app.py lines 49-55). -/
def special_instructions : List String :=
  ["1. If any field is not found, use 'Not Found' as the value",
   "2. Extract only factual information present in the resume",
   "3. Be precise and consistent with data formats",
   "4. For numeric fields, extract only numbers when possible",
   "5. For date fields, use standard formats (YYYY or MM/YYYY)"]

/-- build_dynamic_prompt (src/app.py lines 36-57): the empty schema
yields the empty triple, otherwise the fields, their rendered lines and
the fixed instructions. -/
def build_dynamic_prompt (custom_fields : List FieldDef) :
    List FieldDef × List String × List String :=
  if custom_fields.isEmpty then ([], [], [])
  else (custom_fields, custom_fields.map fieldLine, special_instructions)

/-- The literal text of the prompt f-string before the field lines
(src/app.py lines 67-70). -/
def promptHeaderStr : String :=
  "\nExtract the following information from this resume text and return it as a JSON object:\n\n**Required Fields:**\n"

/-- The literal prompt text between the field lines and the resume text
(src/app.py lines 72-79). -/
def promptMidStr : String :=
  "\n\n**Instructions:**\n" ++ String.intercalate "\n" special_instructions
    ++ "\n\n**Output Format:**\nReturn only a valid JSON object with the exact field names specified above.\n\n**Resume Text:**\n"

/-- The literal prompt text after the resume text (src/app.py
lines 81-83). -/
def promptFooterStr : String := "\n\n**Response:**\n"

/-- The prompt assembled by parse_resume_with_gemma from
build_dynamic_prompt's output (src/app.py lines 65-83); chr(10).join is
String.intercalate with a newline. -/
def promptOf (custom_fields : List FieldDef) (resume_text : String) : String :=
  promptHeaderStr
    ++ String.intercalate "\n" (build_dynamic_prompt custom_fields).2.1
    ++ promptMidStr ++ resume_text ++ promptFooterStr

/-- parse_resume_with_gemma (src/app.py lines 59-98). The external
service is the oracle svc from prompt to raw response text, none
standing for a raised transport/service error; a raised error or a
json.loads failure is caught, reported through st.error and turned into
none. A successful json.loads result is returned as is, whatever its
JSON shape — the function does not check that it is an object. -/
def parse_resume_with_gemma (svc : String → Option String)
    (resume_text : String) (custom_fields : List FieldDef) :
    Option JValue × List Event :=
  if custom_fields.isEmpty then (none, [])
  else
    match svc (promptOf custom_fields resume_text) with
    | none => (none, [Event.error "Error parsing resume with Gemma"])
    | some raw =>
      match parseResponse raw.data with
      | none => (none, [Event.error "Error parsing resume with Gemma"])
      | some v => (some v, [])

/-- The annotation step (src/app.py lines 130-131): stamp the parsed
mapping with the originating filename and the capture timestamp by
Python dict assignment. -/
def annotate (d : JObj) (name ts : String) : JObj :=
  dictSet (dictSet d "file_name" (JValue.str name)) "processed_date" (JValue.str ts)

/-- The st.error message for a document whose parse failed. -/
def failMsg (n : String) : String := "❌ Failed to process: " ++ n

/-- The st.success message for a processed document. -/
def okMsg (n : String) : String := "✅ Processed: " ++ n

/-- The st.warning message for an unsupported extension. -/
def unsupportedMsg (n : String) : String := "Unsupported file type: " ++ n

/-- The per-document outcome of the processing loop body: a record to
append (the loop continues), a skip with the document excluded (the
loop continues), or an uncaught TypeError — raised by
parsed_data[...] = ... when json.loads returned a truthy non-dict —
which aborts the whole batch. Each outcome carries the messages shown
while handling the document. -/
inductive DocOutcome where
  | record (d : JObj) (evs : List Event)
  | skipped (evs : List Event)
  | crashed (evs : List Event)

/-- The messages an outcome showed. -/
def evsOfOutcome : DocOutcome → List Event
  | DocOutcome.record _ evs => evs
  | DocOutcome.skipped evs => evs
  | DocOutcome.crashed evs => evs

/-- The body of the processing loop for one file (src/app.py
lines 111-141): extension dispatch, extraction, the Python truthiness
guards `if resume_text:` (empty text falls through silently) and
`if parsed_data:` (a falsy parse result counts as a failure), then the
two annotation assignments — which raise an uncaught TypeError when the
truthy parse result is not a dict — and the caller-visible messages, in
source order. -/
def processOneFile (svc : String → Option String) (now : String)
    (fields : List FieldDef) (f : UploadedFile) : DocOutcome :=
  if supportedExt (fileExtension f.name) then
    match extractedResumeText f with
    | none => DocOutcome.skipped [Event.error (readErrorMsg f)]
    | some t =>
      if t = "" then DocOutcome.skipped []
      else
        match parse_resume_with_gemma svc t fields with
        | (some v, evs) =>
          if pyTruthy v then
            match v with
            | JValue.obj d =>
              DocOutcome.record (annotate d f.name now)
                (evs ++ [Event.success (okMsg f.name)])
            | _ => DocOutcome.crashed evs
          else DocOutcome.skipped (evs ++ [Event.error (failMsg f.name)])
        | (none, evs) => DocOutcome.skipped (evs ++ [Event.error (failMsg f.name)])
  else DocOutcome.skipped [Event.warning (unsupportedMsg f.name)]

/-- The outcome of a whole batch run: normal completion with the
ResultSet and the messages shown, or an uncaught TypeError that aborted
the run — the local results list dies with the exception (the caller's
assignment never happens), so only the messages already rendered
remain; the framework's own traceback display names no document and is
not modelled. -/
inductive BatchOutcome where
  | ok (records : List JObj) (events : List Event)
  | crashed (events : List Event)

/-- The sequential batch loop over the uploads, carrying the records
appended and the messages shown so far; a crashed document aborts the
loop and discards the records. -/
def runBatch (svc : String → Option String) (now : String)
    (fields : List FieldDef) :
    List UploadedFile → List JObj → List Event → BatchOutcome
  | [], recs, evs => BatchOutcome.ok recs evs
  | f :: fs, recs, evs =>
    match processOneFile svc now fields f with
    | DocOutcome.record d devs =>
      runBatch svc now fields fs (recs ++ [d]) (evs ++ devs)
    | DocOutcome.skipped devs => runBatch svc now fields fs recs (evs ++ devs)
    | DocOutcome.crashed devs => BatchOutcome.crashed (evs ++ devs)

/-- process_uploaded_files (src/app.py lines 100-144): refuse an empty
schema with a blocking error, otherwise run the per-file loop over the
uploads in order. The progress bar, status text and the fixed
rate-limit pause are advisory side effects with no bearing on the
results and are not modelled. -/
def process_uploaded_files (svc : String → Option String) (now : String)
    (fields : List FieldDef) (files : List UploadedFile) : BatchOutcome :=
  if fields.isEmpty then
    BatchOutcome.ok []
      [Event.error "❌ Please add fields in the sidebar before processing."]
  else runBatch svc now fields files [] []

/-- The add-field action of render_sidebar (src/app.py lines 176-191):
require all three inputs non-empty, build the stripped field, and append
it unless field_name.lower() occurs among the existing (raw, unlowered)
field_name values — the comparison exactly as the source writes it. -/
def addField (fields : List FieldDef)
    (field_name descr column_name : String) : List FieldDef :=
  if field_name = "" ∨ descr = "" ∨ column_name = "" then fields
  else if pyLower field_name ∈ fields.map (fun f => f.field_name) then fields
  else fields ++ [⟨pyStrip field_name, pyStrip descr, pyStrip column_name⟩]

/-- The schema invariant named by the spec: field_name values unique up
to letter case. -/
def caseInsensUniqueNames (fields : List FieldDef) : Prop :=
  (fields.map (fun f => pyLower f.field_name)).Nodup

instance (fields : List FieldDef) : Decidable (caseInsensUniqueNames fields) := by
  unfold caseInsensUniqueNames; infer_instance

/-- pandas' column list for a DataFrame built from a list of dicts: the
keys in order of first appearance. firstDedupAux carries the keys
already seen. -/
def firstDedupAux (seen : List String) : List String → List String
  | [] => []
  | x :: xs =>
    if x ∈ seen then firstDedupAux seen xs
    else x :: firstDedupAux (x :: seen) xs

/-- The columns of pd.DataFrame(records). -/
def dfColumns (records : List JObj) : List String :=
  firstDedupAux [] (records.flatMap (fun r => r.map Prod.fst))

/-- The display renaming of main (src/app.py lines 363-373): the
column_mapping dict sends each field_name to its column_name, with the
file_name and processed_date entries added last (so they win a clash),
and a later duplicate field_name overwriting an earlier one; a column
absent from the mapping keeps its label. -/
def renameCol (fields : List FieldDef) (c : String) : String :=
  if c = "file_name" then "File Name"
  else if c = "processed_date" then "Processed Date"
  else
    match fields.reverse.find? (fun f => decide (f.field_name = c)) with
    | some f => f.column_name
    | none => c

/-- display_df.columns: the DataFrame columns after the display
renaming. -/
def displayColumns (records : List JObj) (fields : List FieldDef) : List String :=
  (dfColumns records).map (renameCol fields)

/-- The column ordering of main (src/app.py lines 375-384): File Name,
then each schema column_name present among the display columns, then
Processed Date, the whole list filtered again to existing columns. -/
def assembledColumns (records : List JObj) (fields : List FieldDef) : List String :=
  ("File Name"
      :: (fields.filter
            (fun f => decide (f.column_name ∈ displayColumns records fields))).map
            (fun f => f.column_name)
      ++ ["Processed Date"]).filter
    (fun c => decide (c ∈ displayColumns records fields))

/-! ## Helper lemmas -/

/-- Looking up the key just assigned yields the assigned value. -/
theorem dictGet?_dictSet_self (d : JObj) (k : String) (v : JValue) :
    dictGet? (dictSet d k v) k = some v := by
  induction d with
  | nil => simp [dictSet, dictGet?]
  | cons p ps ih =>
    by_cases h : p.1 = k
    · simp [dictSet, h, dictGet?]
    · simpa [dictSet, h, dictGet?] using ih

/-- Assignment to one key leaves every other key's lookup unchanged. -/
theorem dictGet?_dictSet_ne (d : JObj) (k : String) (v : JValue)
    (k' : String) (h : k' ≠ k) :
    dictGet? (dictSet d k v) k' = dictGet? d k' := by
  induction d with
  | nil => simp [dictSet, dictGet?, Ne.symm h]
  | cons p ps ih =>
    by_cases hp : p.1 = k
    · have hset : dictSet (p :: ps) k v = (k, v) :: ps := by simp [dictSet, hp]
      have hp2 : ¬ (p.1 = k') := by rw [hp]; exact Ne.symm h
      rw [hset]
      simp [dictGet?, List.find?_cons, Ne.symm h, hp2]
    · have hset : dictSet (p :: ps) k v = p :: dictSet ps k v := by
        simp [dictSet, hp]
      rw [hset]
      by_cases hp' : p.1 = k'
      · simp [dictGet?, List.find?_cons, hp']
      · simpa [dictGet?, List.find?_cons, hp'] using ih

/-- An already-failed accumulator stays failed through the page loop. -/
theorem foldl_pdfStep_none (pages : List (Option String)) :
    pages.foldl pdfStep none = none := by
  induction pages with
  | nil => rfl
  | cons p ps ih =>
    have h : pdfStep none p = none := by cases p <;> rfl
    simpa [h] using ih

/-- With every page readable, the page loop concatenates in order onto
the accumulator. -/
theorem foldl_pdfStep_map_some (texts : List String) :
    ∀ acc : String,
      (texts.map some).foldl pdfStep (some acc)
        = some (texts.foldl (fun a b => a ++ b) acc) := by
  induction texts with
  | nil => intro acc; rfl
  | cons t ts ih => intro acc; simpa [pdfStep] using ih (acc ++ t)

/-- A failing page poisons the page loop whatever the accumulator. -/
theorem foldl_pdfStep_mem_none (pages : List (Option String)) :
    ∀ acc, none ∈ pages → pages.foldl pdfStep acc = none := by
  induction pages with
  | nil => intro acc h; simp at h
  | cons p ps ih =>
    intro acc h
    rcases List.mem_cons.mp h with h1 | h2
    · have hstep : pdfStep acc p = none := by
        cases h1; cases acc <;> rfl
      rw [List.foldl_cons, hstep]
      exact foldl_pdfStep_none ps
    · rw [List.foldl_cons]
      exact ih (pdfStep acc p) h2

/-- The three-character and seven-character fence markers as explicit
character lists. -/
theorem fence_eq : "```".data = ['`', '`', '`'] := rfl

/-- The json-tagged marker splits as the generic marker and the tag. -/
theorem fenceJson_eq : "```json".data = "```".data ++ "json".data := rfl

/-- Dropping a prefix of known length and the trailing three characters
of a concatenation recovers the middle. -/
theorem sliceMid (a b c : List Char) (n : Nat) (ha : a.length = n)
    (hc : c.length = 3) :
    ((a ++ b ++ c).take ((a ++ b ++ c).length - 3)).drop n = b := by
  subst ha
  have h1 : (a ++ b ++ c).length - 3 = a.length + b.length := by
    simp [hc]; omega
  have h2 : (a ++ b ++ c).take (a.length + b.length) = a ++ b := by
    rw [List.append_assoc, List.take_append_eq_append_take,
      List.take_of_length_le (Nat.le_add_right a.length b.length),
      Nat.add_sub_cancel_left, List.take_append_eq_append_take,
      List.take_length, Nat.sub_self, List.take_zero, List.append_nil]
  rw [h1, h2, List.drop_left]

/-- A string that does not start with the generic fence marker does not
start with the json-tagged one either. -/
theorem not_fenceJson_of_not_fence (t : List Char)
    (h : "```".data.isPrefixOf t = false) :
    "```json".data.isPrefixOf t = false := by
  rw [Bool.eq_false_iff] at h ⊢
  intro hc
  apply h
  rw [List.isPrefixOf_iff_prefix] at hc ⊢
  exact List.IsPrefix.trans ⟨"json".data, fenceJson_eq.symm⟩ hc

/-- A text with no leading fence marker passes the stripping
unchanged. -/
theorem cleanJsonText_not_fenced (t : List Char)
    (h1 : "```".data.isPrefixOf t = false) :
    cleanJsonText t = t := by
  rw [cleanJsonText, not_fenceJson_of_not_fence t h1, h1]
  simp

/-- A payload wrapped in the json-tagged fence is recovered exactly. -/
theorem cleanJsonText_json_fenced (p : List Char) :
    cleanJsonText ("```json".data ++ p ++ "```".data) = p := by
  have hpre : "```json".data.isPrefixOf
      ("```json".data ++ p ++ "```".data) = true := by
    rw [List.isPrefixOf_iff_prefix, List.append_assoc]
    exact List.prefix_append _ _
  rw [cleanJsonText, hpre]
  simp only [if_true]
  exact sliceMid _ p _ 7 rfl rfl

/-- A payload wrapped in the generic fence is recovered exactly, when
the payload does not itself begin with the json tag. -/
theorem cleanJsonText_generic_fenced (p : List Char)
    (h2 : "json".data.isPrefixOf (p ++ "```".data) = false) :
    cleanJsonText ("```".data ++ p ++ "```".data) = p := by
  have hpre7 : "```json".data.isPrefixOf
      ("```".data ++ p ++ "```".data) = false := by
    rw [Bool.eq_false_iff]
    intro hc
    rw [List.isPrefixOf_iff_prefix, fenceJson_eq, List.append_assoc,
      List.prefix_append_right_inj] at hc
    rw [Bool.eq_false_iff] at h2
    exact h2 (List.isPrefixOf_iff_prefix.mpr hc)
  have hpre3 : "```".data.isPrefixOf
      ("```".data ++ p ++ "```".data) = true := by
    rw [List.isPrefixOf_iff_prefix, List.append_assoc]
    exact List.prefix_append _ _
  rw [cleanJsonText, hpre7, hpre3]
  simp only [Bool.false_eq_true, if_false, if_true]
  exact sliceMid _ p _ 3 rfl rfl

/-- A text starting and ending with the backtick fence has no
surrounding whitespace to strip. -/
theorem trimWs_fence_wrapped (u : List Char) :
    trimWs ("```".data ++ u ++ "```".data) = "```".data ++ u ++ "```".data := by
  have hws : isWsChar '`' = false := rfl
  unfold trimWs
  rw [fence_eq]
  have h1 : ((['`', '`', '`'] ++ u) ++ ['`', '`', '`']).dropWhile isWsChar
      = (['`', '`', '`'] ++ u) ++ ['`', '`', '`'] := by
    simp [List.cons_append, List.dropWhile_cons, hws]
  rw [h1]
  have h2 : (((['`', '`', '`'] ++ u) ++ ['`', '`', '`']).reverse).dropWhile isWsChar
      = ((['`', '`', '`'] ++ u) ++ ['`', '`', '`']).reverse := by
    rw [List.reverse_append]
    simp [List.cons_append, List.dropWhile_cons, hws]
  rw [h2, List.reverse_reverse]

/-- Everything true of a batch run that completed normally: the
starting messages survive, every record came from some file's record
outcome, every processed file's messages survive, and no file
crashed. -/
theorem runBatch_ok (svc : String → Option String) (now : String)
    (fields : List FieldDef) :
    ∀ (files : List UploadedFile) (recs : List JObj) (evs : List Event)
      (recsB : List JObj) (evsB : List Event),
      runBatch svc now fields files recs evs = BatchOutcome.ok recsB evsB →
      (∀ e ∈ evs, e ∈ evsB)
      ∧ (∀ d ∈ recsB, d ∈ recs ∨ ∃ f ∈ files, ∃ devs,
            processOneFile svc now fields f = DocOutcome.record d devs)
      ∧ (∀ f ∈ files, ∀ e ∈ evsOfOutcome (processOneFile svc now fields f),
            e ∈ evsB)
      ∧ (∀ f ∈ files, ∀ cevs,
            processOneFile svc now fields f ≠ DocOutcome.crashed cevs) := by
  intro files
  induction files with
  | nil =>
    intro recs evs recsB evsB h
    rw [runBatch] at h
    injection h with h1 h2
    subst h1; subst h2
    refine ⟨fun e he => he, fun d hd => Or.inl hd, ?_, ?_⟩
    · intro f hf; simp at hf
    · intro f hf; simp at hf
  | cons f fs ih =>
    intro recs evs recsB evsB h
    rcases hout : processOneFile svc now fields f with ⟨d, devs⟩ | ⟨devs⟩ | ⟨devs⟩
    · rw [runBatch, hout] at h
      obtain ⟨ih1, ih2, ih3, ih4⟩ := ih _ _ _ _ h
      refine ⟨fun e he => ih1 e (List.mem_append_left _ he), ?_, ?_, ?_⟩
      · intro d' hd'
        rcases ih2 d' hd' with hin | ⟨f', hf', devs', hrec⟩
        · rcases List.mem_append.mp hin with hin | hin
          · exact Or.inl hin
          · exact Or.inr ⟨f, List.mem_cons_self f fs, devs,
              by rw [hout, List.mem_singleton.mp hin]⟩
        · exact Or.inr ⟨f', List.mem_cons_of_mem f hf', devs', hrec⟩
      · intro f' hf' e he
        rcases List.mem_cons.mp hf' with rfl | hf'
        · rw [hout] at he
          exact ih1 e (List.mem_append_right _ he)
        · exact ih3 f' hf' e he
      · intro f' hf' cevs
        rcases List.mem_cons.mp hf' with rfl | hf'
        · rw [hout]; intro hc; exact DocOutcome.noConfusion hc
        · exact ih4 f' hf' cevs
    · rw [runBatch, hout] at h
      obtain ⟨ih1, ih2, ih3, ih4⟩ := ih _ _ _ _ h
      refine ⟨fun e he => ih1 e (List.mem_append_left _ he), ?_, ?_, ?_⟩
      · intro d' hd'
        rcases ih2 d' hd' with hin | ⟨f', hf', devs', hrec⟩
        · exact Or.inl hin
        · exact Or.inr ⟨f', List.mem_cons_of_mem f hf', devs', hrec⟩
      · intro f' hf' e he
        rcases List.mem_cons.mp hf' with rfl | hf'
        · rw [hout] at he
          exact ih1 e (List.mem_append_right _ he)
        · exact ih3 f' hf' e he
      · intro f' hf' cevs
        rcases List.mem_cons.mp hf' with rfl | hf'
        · rw [hout]; intro hc; exact DocOutcome.noConfusion hc
        · exact ih4 f' hf' cevs
    · rw [runBatch, hout] at h
      exact BatchOutcome.noConfusion h

/-- A parse that yields a value shows no message. -/
theorem parse_some_no_events (svc : String → Option String) (t : String)
    (fields : List FieldDef) (v : JValue) (evs : List Event)
    (h : parse_resume_with_gemma svc t fields = (some v, evs)) : evs = [] := by
  by_cases hf : fields.isEmpty
  · simp [parse_resume_with_gemma, hf] at h
  · rcases hsvc : svc (promptOf fields t) with _ | raw
    · simp [parse_resume_with_gemma, hf, hsvc] at h
    · rcases hpr : parseResponse raw.data with _ | v0
      · simp [parse_resume_with_gemma, hf, hsvc, hpr] at h
      · simp [parse_resume_with_gemma, hf, hsvc, hpr] at h
        exact h.2

/-- A record produced for a file is its parsed response annotated with
the filename and timestamp. -/
theorem perDoc_record_annotate (svc : String → Option String) (now : String)
    (fields : List FieldDef) (f : UploadedFile) (d : JObj) (devs : List Event)
    (h : processOneFile svc now fields f = DocOutcome.record d devs) :
    ∃ d0, d = annotate d0 f.name now := by
  by_cases hs : supportedExt (fileExtension f.name)
  · rcases hx : extractedResumeText f with _ | t
    · simp [processOneFile, hs, hx] at h
    · by_cases ht : t = ""
      · simp [processOneFile, hs, hx, ht] at h
      · rcases hp : parse_resume_with_gemma svc t fields with ⟨o, evs⟩
        cases o with
        | none => simp [processOneFile, hs, hx, ht, hp] at h
        | some v =>
          by_cases htr : pyTruthy v
          · cases v
            all_goals simp [processOneFile, hs, hx, ht, hp, htr] at h
            next d0 => exact ⟨d0, h.1.symm⟩
          · simp [processOneFile, hs, hx, ht, hp, htr] at h
  · simp [processOneFile, hs] at h

/-- A crashed document shows no message at all: the TypeError is raised
after a silent successful parse and before any st call. -/
theorem perDoc_crashed_silent (svc : String → Option String) (now : String)
    (fields : List FieldDef) (f : UploadedFile) (cevs : List Event)
    (h : processOneFile svc now fields f = DocOutcome.crashed cevs) :
    cevs = [] := by
  by_cases hs : supportedExt (fileExtension f.name)
  · rcases hx : extractedResumeText f with _ | t
    · simp [processOneFile, hs, hx] at h
    · by_cases ht : t = ""
      · simp [processOneFile, hs, hx, ht] at h
      · rcases hp : parse_resume_with_gemma svc t fields with ⟨o, evs⟩
        cases o with
        | none => simp [processOneFile, hs, hx, ht, hp] at h
        | some v =>
          have hevs : evs = [] := parse_some_no_events svc t fields v evs hp
          subst hevs
          by_cases htr : pyTruthy v
          · cases v
            all_goals simp [processOneFile, hs, hx, ht, hp, htr] at h
            all_goals exact h
          · simp [processOneFile, hs, hx, ht, hp, htr] at h
  · simp [processOneFile, hs] at h

/-- The message of an event built by appending the filename contains
that filename. -/
theorem name_infix_append (a b : String) : List.IsInfix b.data (a ++ b).data :=
  ⟨a.data, [], by simp⟩

/-- A caller-visible warning or error whose message text contains the
document's filename. -/
def identifiesDoc (name : String) (e : Event) : Prop :=
  (∃ m, e = Event.warning m ∨ e = Event.error m)
  ∧ List.IsInfix name.data (msgOf e).data

/-- Every file whose processing skips it (excluded, loop continuing)
either leaves a warning or error naming the file among its messages, or
was silently dropped by the empty-extracted-text truthiness guard. -/
theorem perDoc_skipped_reported (svc : String → Option String) (now : String)
    (fields : List FieldDef) (f : UploadedFile) (sevs : List Event)
    (hsk : processOneFile svc now fields f = DocOutcome.skipped sevs) :
    (∃ e ∈ sevs, identifiesDoc f.name e)
    ∨ extractedResumeText f = some "" := by
  by_cases hs : supportedExt (fileExtension f.name)
  · rcases hx : extractedResumeText f with _ | t
    · left
      have hevs : sevs = [Event.error (readErrorMsg f)] := by
        simp [processOneFile, hs, hx] at hsk
        exact hsk.symm
      refine ⟨Event.error (readErrorMsg f), by simp [hevs], ?_⟩
      refine ⟨⟨readErrorMsg f, Or.inr rfl⟩, ?_⟩
      show List.IsInfix f.name.data (readErrorMsg f).data
      rw [readErrorMsg]
      by_cases hpdf : fileExtension f.name = "pdf"
      · rw [if_pos hpdf]; exact name_infix_append _ _
      · rw [if_neg hpdf]; exact name_infix_append _ _
    · by_cases ht : t = ""
      · right
        simp only [ht]
      · left
        rcases hp : parse_resume_with_gemma svc t fields with ⟨o, evs⟩
        cases o with
        | some v =>
          by_cases htr : pyTruthy v
          · cases v <;> simp [processOneFile, hs, hx, ht, hp, htr] at hsk
          · have hevs : sevs = evs ++ [Event.error (failMsg f.name)] := by
              simp [processOneFile, hs, hx, ht, hp, htr] at hsk
              exact hsk.symm
            refine ⟨Event.error (failMsg f.name), by simp [hevs], ?_⟩
            exact ⟨⟨failMsg f.name, Or.inr rfl⟩, name_infix_append _ _⟩
        | none =>
          have hevs : sevs = evs ++ [Event.error (failMsg f.name)] := by
            simp [processOneFile, hs, hx, ht, hp] at hsk
            exact hsk.symm
          refine ⟨Event.error (failMsg f.name), by simp [hevs], ?_⟩
          exact ⟨⟨failMsg f.name, Or.inr rfl⟩, name_infix_append _ _⟩
  · left
    have hevs : sevs = [Event.warning (unsupportedMsg f.name)] := by
      simp [processOneFile, hs] at hsk
      exact hsk.symm
    refine ⟨Event.warning (unsupportedMsg f.name), by simp [hevs], ?_⟩
    exact ⟨⟨unsupportedMsg f.name, Or.inl rfl⟩, name_infix_append _ _⟩

/-- Membership in the first-occurrence dedup: present in the input and
not among the seen keys. -/
theorem mem_firstDedupAux (y : String) :
    ∀ (l : List String) (seen : List String),
      y ∈ firstDedupAux seen l ↔ y ∈ l ∧ y ∉ seen := by
  intro l
  induction l with
  | nil => intro seen; simp [firstDedupAux]
  | cons x xs ih =>
    intro seen
    by_cases hx : x ∈ seen
    · rw [firstDedupAux, if_pos hx, ih seen]
      constructor
      · rintro ⟨h1, h2⟩
        exact ⟨List.mem_cons_of_mem x h1, h2⟩
      · rintro ⟨h1, h2⟩
        rcases List.mem_cons.mp h1 with rfl | h1
        · exact absurd hx h2
        · exact ⟨h1, h2⟩
    · rw [firstDedupAux, if_neg hx]
      constructor
      · intro hm
        rcases List.mem_cons.mp hm with rfl | hm
        · exact ⟨List.mem_cons_self _ _, hx⟩
        · rcases (ih (x :: seen)).mp hm with ⟨h1, h2⟩
          exact ⟨List.mem_cons_of_mem x h1,
            fun hc => h2 (List.mem_cons_of_mem x hc)⟩
      · rintro ⟨h1, h2⟩
        rcases List.mem_cons.mp h1 with rfl | h1
        · exact List.mem_cons_self _ _
        · by_cases hyx : y = x
          · subst hyx; exact List.mem_cons_self _ _
          · refine List.mem_cons_of_mem x ((ih (x :: seen)).mpr ⟨h1, ?_⟩)
            simp [List.mem_cons, hyx, h2]

/-- A label is a DataFrame column exactly when some record carries it as
a key. -/
theorem mem_dfColumns (records : List JObj) (y : String) :
    y ∈ dfColumns records ↔ ∃ r ∈ records, ∃ p ∈ r, p.1 = y := by
  rw [dfColumns, mem_firstDedupAux]
  simp [List.mem_flatMap, List.mem_map]

/-- A label is a display column exactly when some record carries a key
that the display renaming sends to it. -/
theorem mem_displayColumns (records : List JObj) (fields : List FieldDef)
    (x : String) :
    x ∈ displayColumns records fields
      ↔ ∃ r ∈ records, ∃ p ∈ r, renameCol fields p.1 = x := by
  rw [displayColumns]
  simp only [List.mem_map]
  constructor
  · rintro ⟨c, hc, rfl⟩
    rcases (mem_dfColumns records c).mp hc with ⟨r, hr, p, hp, rfl⟩
    exact ⟨r, hr, p, hp, rfl⟩
  · rintro ⟨r, hr, p, hp, rfl⟩
    exact ⟨p.1, (mem_dfColumns records p.1).mpr ⟨r, hr, p, hp, rfl⟩, rfl⟩

/-- The file_name key always displays as File Name. -/
theorem renameCol_file_name (fields : List FieldDef) :
    renameCol fields "file_name" = "File Name" := by
  simp [renameCol]

/-- The processed_date key always displays as Processed Date. -/
theorem renameCol_processed_date (fields : List FieldDef) :
    renameCol fields "processed_date" = "Processed Date" := by
  rw [renameCol, if_neg (by decide), if_pos rfl]

/-! ## Claim theorems -/

/-- The schema used by the concrete batch scenarios. -/
def fullNameField : FieldDef :=
  ⟨"full_name", "Full name of the candidate", "Full Name"⟩

/-- A service oracle answering every prompt with a fence-wrapped JSON
object. -/
def svcStub : String → Option String :=
  fun _ => some "```json\n\x7b\"full_name\": \"Bob\"\x7d\n```"

/-- A PDF upload whose single page reads fine. -/
def pdfOkFile : UploadedFile := ⟨"resume.pdf", [some "resume text"], none⟩

/-- An upload with an unsupported extension. -/
def txtFile : UploadedFile := ⟨"notes.txt", [], none⟩

/-- A PDF upload whose page text marks it for the poisoned response. -/
def arrPdfFile : UploadedFile := ⟨"weird.pdf", [some "ARRDOC resume"], none⟩

/-- Whether the needle occurs as a contiguous run of the haystack. -/
def containsSub (needle hay : List Char) : Bool :=
  hay.tails.any (fun t => needle.isPrefixOf t)

/-- A service oracle answering the prompt that embeds the poisoned
resume with a bare JSON array — valid JSON, not an object — and every
other prompt with a fence-wrapped object. -/
def svcMixed : String → Option String :=
  fun p =>
    if containsSub "ARRDOC".data p.data then some "[1, 2]"
    else some "```json\n\x7b\"full_name\": \"Bob\"\x7d\n```"

set_option maxRecDepth 8192 in
/-- Claim C1 (code bug). The spec makes every per-document failure
recoverable at the batch level, and the code means to (the parse is
wrapped in try/except and the loop continues past failures) — but a
service response that json.loads accepts with a truthy non-dict value,
such as "[1, 2]", raises an uncaught TypeError at
parsed_data[...] = ... (src/app.py line 130), outside the try, and
aborts the whole batch: the later document is never processed and no
results survive, where the claim requires the document to be excluded
and processing to continue. The same batch without the poisoned
document completes normally. -/
theorem claim_C1_crash_abort :
    process_uploaded_files svcMixed "TS" [fullNameField] [arrPdfFile, pdfOkFile]
      = BatchOutcome.crashed []
    ∧ process_uploaded_files svcMixed "TS" [fullNameField] [pdfOkFile]
      = BatchOutcome.ok
          [[("full_name", JValue.str "Bob"),
            ("file_name", JValue.str "resume.pdf"),
            ("processed_date", JValue.str "TS")]]
          [Event.success (okMsg "resume.pdf")] :=
  ⟨rfl, rfl⟩

/-- A service oracle answering with a JSON object that omits the
requested schema field. -/
def svcOther : String → Option String :=
  fun _ => some "\x7b\"other\": \"x\"\x7d"

/-- Claim C8 (counterexample). With the schema asking for full_name and
the service answering an object without that key, the appended record
carries no key for the schema field — the code neither checks nor fills
the "Not Found" sentinel, so the claim fails on the code. -/
theorem claim_C8_counterexample :
    process_uploaded_files svcOther "TS" [fullNameField] [pdfOkFile]
      = BatchOutcome.ok
          [[("other", JValue.str "x"), ("file_name", JValue.str "resume.pdf"),
            ("processed_date", JValue.str "TS")]]
          [Event.success (okMsg "resume.pdf")]
    ∧ dictGet? [("other", JValue.str "x"),
          ("file_name", JValue.str "resume.pdf"),
          ("processed_date", JValue.str "TS")] "full_name" = none :=
  ⟨rfl, rfl⟩

/-- Claim C8 (amended). Every record appended to the ResultSet carries
the two reserved meta keys: processed_date bound to the batch timestamp
and file_name bound to the name of the originating upload. A key for
every schema field, with the "Not Found" sentinel, is the service's
obligation under the prompt contract and is not enforced by the code
(see the counterexample). -/
theorem claim_C8_meta_keys (svc : String → Option String) (now : String)
    (fields : List FieldDef) (files : List UploadedFile) (d : JObj)
    (recsB : List JObj) (evsB : List Event) (hf : fields ≠ [])
    (hok : process_uploaded_files svc now fields files
      = BatchOutcome.ok recsB evsB)
    (hd : d ∈ recsB) :
    dictGet? d "processed_date" = some (JValue.str now)
    ∧ ∃ f ∈ files, dictGet? d "file_name" = some (JValue.str f.name) := by
  have hrun : runBatch svc now fields files [] [] = BatchOutcome.ok recsB evsB := by
    cases fields with
    | nil => exact absurd rfl hf
    | cons g gs => simpa [process_uploaded_files] using hok
  obtain ⟨_, h2, _, _⟩ := runBatch_ok svc now fields files [] [] recsB evsB hrun
  rcases h2 d hd with hin | ⟨f, hfmem, devs, hrec⟩
  · simp at hin
  · rcases perDoc_record_annotate svc now fields f d devs hrec with ⟨d0, rfl⟩
    refine ⟨?_, ⟨f, hfmem, ?_⟩⟩
    · rw [annotate]
      exact dictGet?_dictSet_self _ _ _
    · rw [annotate, dictGet?_dictSet_ne _ _ _ _ (by decide)]
      exact dictGet?_dictSet_self _ _ _

/-- Claim C8 (witness). The meta keys of the one record of a concrete
successful batch. -/
theorem claim_C8_witness :
    dictGet? [("full_name", JValue.str "Bob"),
        ("file_name", JValue.str "resume.pdf"),
        ("processed_date", JValue.str "TS")] "processed_date"
      = some (JValue.str "TS")
    ∧ ∃ f ∈ [pdfOkFile],
        dictGet? [("full_name", JValue.str "Bob"),
          ("file_name", JValue.str "resume.pdf"),
          ("processed_date", JValue.str "TS")] "file_name"
          = some (JValue.str f.name) :=
  claim_C8_meta_keys svcStub "TS" [fullNameField] [pdfOkFile]
    [("full_name", JValue.str "Bob"), ("file_name", JValue.str "resume.pdf"),
     ("processed_date", JValue.str "TS")]
    [[("full_name", JValue.str "Bob"), ("file_name", JValue.str "resume.pdf"),
      ("processed_date", JValue.str "TS")]]
    [Event.success (okMsg "resume.pdf")]
    (by decide) rfl (List.mem_singleton.mpr rfl)

/-- A service oracle that always fails (irrelevant to the scenario). -/
def svcNone : String → Option String := fun _ => none

/-- A PDF upload whose single page extracts to the empty string. -/
def emptyPdfFile : UploadedFile := ⟨"empty.pdf", [some ""], none⟩

/-- Claim C9 (counterexample). A document whose extraction succeeds with
empty text is excluded from the ResultSet with no message at all — the
truthiness guard `if resume_text:` drops it silently, refuting "no
failure is silently swallowed" for this case the claim names. -/
theorem claim_C9_counterexample :
    process_uploaded_files svcNone "TS" [fullNameField] [emptyPdfFile]
      = BatchOutcome.ok [] [] :=
  rfl

/-- Claim C9 (amended). In a batch run that completes, every document
excluded from the ResultSet either leaves a caller-visible warning or
error naming it among the batch messages, or is the silent case (a): a
document whose extraction yields empty text, skipped with no message
(the counterexample). The second conjunct is silent case (b): a
document whose truthy non-dict response raises the uncaught TypeError
shows no message at all before aborting the batch — the parse succeeds
silently and the crash precedes every st call, so no message names the
document there either. -/
theorem claim_C9_reported (svc : String → Option String) (now : String)
    (fields : List FieldDef) (files : List UploadedFile) (hf : fields ≠ []) :
    (∀ f ∈ files, ∀ (recsB : List JObj) (evsB : List Event),
      process_uploaded_files svc now fields files = BatchOutcome.ok recsB evsB →
      (∀ (d : JObj) (devs : List Event),
        processOneFile svc now fields f ≠ DocOutcome.record d devs) →
      (∃ e ∈ evsB, identifiesDoc f.name e)
      ∨ extractedResumeText f = some "")
    ∧ ∀ (f : UploadedFile) (cevs : List Event),
        processOneFile svc now fields f = DocOutcome.crashed cevs →
        cevs = [] := by
  constructor
  · intro f hmem recsB evsB hok hexcl
    have hrun : runBatch svc now fields files [] []
        = BatchOutcome.ok recsB evsB := by
      cases fields with
      | nil => exact absurd rfl hf
      | cons g gs => simpa [process_uploaded_files] using hok
    obtain ⟨_, _, h3, h4⟩ := runBatch_ok svc now fields files [] [] recsB evsB hrun
    rcases hout : processOneFile svc now fields f with ⟨d, devs⟩ | ⟨devs⟩ | ⟨devs⟩
    · exact absurd hout (hexcl d devs)
    · rcases perDoc_skipped_reported svc now fields f devs hout with ⟨e, he, hid⟩ | hemp
      · left
        refine ⟨e, h3 f hmem e ?_, hid⟩
        rw [hout]
        exact he
      · right
        exact hemp
    · exact absurd hout (h4 f hmem devs)
  · intro f cevs h
    exact perDoc_crashed_silent svc now fields f cevs h

/-- Claim C9 (witness). The unsupported upload in a completed one-file
batch is reported by a warning naming it. -/
theorem claim_C9_witness :
    (∃ e ∈ [Event.warning (unsupportedMsg "notes.txt")],
        identifiesDoc txtFile.name e)
    ∨ extractedResumeText txtFile = some "" :=
  (claim_C9_reported svcStub "TS" [fullNameField] [txtFile] (by decide)).1
    txtFile (List.mem_singleton.mpr rfl)
    [] [Event.warning (unsupportedMsg "notes.txt")] rfl
    (fun d devs h =>
      DocOutcome.noConfusion
        ((rfl : processOneFile svcStub "TS" [fullNameField] txtFile
            = DocOutcome.skipped
                [Event.warning (unsupportedMsg "notes.txt")]).symm.trans h))
/-- Claim C3 (code bug). The add-field check compares the lowercased new
name against the raw stored names, so a schema holding field_name "Name"
accepts a second field also named "Name": the code appends the duplicate
("name" is not among ["Name"]), destroying the case-insensitive
uniqueness invariant the spec states and the code's own
"Field name already exists!" branch intends to protect. -/
theorem claim_C3_code_bug_eval :
    addField [⟨"Name", "d", "c"⟩] "Name" "d2" "c2"
      = [⟨"Name", "d", "c"⟩, ⟨"Name", "d2", "c2"⟩]
    ∧ caseInsensUniqueNames [⟨"Name", "d", "c"⟩]
    ∧ ¬ caseInsensUniqueNames
        (addField [⟨"Name", "d", "c"⟩] "Name" "d2" "c2") := by
  refine ⟨by decide, by decide, by decide⟩

/-- Claim C4 (counterexample). On the raw text made of the json-tagged
fence marker directly followed by the payload, with no closing fence,
the stripping removes the last three payload characters: the claim's
"never any payload characters" fails. -/
theorem claim_C4_counterexample :
    cleanJsonText "```json\x7b\"a\":1\x7d".data = "\x7b\"a\"".data
    ∧ cleanJsonText "```json\x7b\"a\":1\x7d".data ≠ "\x7b\"a\":1\x7d".data := by
  refine ⟨by decide, by decide⟩

/-- Claim C4 (amended). Fence detection is by prefix: with no leading
fence marker the text passes unchanged; when the text is the payload
surrounded by a leading json-tagged or generic fence marker and a
closing fence, exactly the delimiters are removed. (When a leading
marker is present without a closing fence, the code still removes the
last three characters, which then belong to the payload — the
counterexample above.) -/
theorem claim_C4_fence_strip (t p : List Char)
    (h1 : "```".data.isPrefixOf t = false)
    (h2 : "json".data.isPrefixOf (p ++ "```".data) = false) :
    cleanJsonText t = t
    ∧ cleanJsonText ("```json".data ++ p ++ "```".data) = p
    ∧ cleanJsonText ("```".data ++ p ++ "```".data) = p :=
  ⟨cleanJsonText_not_fenced t h1, cleanJsonText_json_fenced p,
   cleanJsonText_generic_fenced p h2⟩

/-- Claim C4 (witness). The amended theorem applied to the concrete
unfenced text and the concrete payload. -/
theorem claim_C4_witness :
    cleanJsonText "\x7b\"a\":1\x7d".data = "\x7b\"a\":1\x7d".data
    ∧ cleanJsonText ("```json".data ++ "\x7b\"a\":1\x7d".data ++ "```".data)
        = "\x7b\"a\":1\x7d".data
    ∧ cleanJsonText ("```".data ++ "\x7b\"a\":1\x7d".data ++ "```".data)
        = "\x7b\"a\":1\x7d".data :=
  claim_C4_fence_strip "\x7b\"a\":1\x7d".data "\x7b\"a\":1\x7d".data
    (by decide) (by decide)

/-- Claim C2. For every result set whose records all carry the two meta
keys (the ResultSet invariant: the batch stamps both on every record)
and every schema, the assembled table's columns are exactly File Name
first, then each schema field's column_name in schema order restricted
to the columns actually present, then Processed Date last; a schema
column absent from every record is omitted, not padded. The second
conjunct pins down "present": a display column exists exactly when some
record carries a key the display renaming sends to it, so the order
depends on the records only through key presence. -/
theorem claim_C2_column_order (records : List JObj) (fields : List FieldDef)
    (g : FieldDef) (hne : records ≠ [])
    (hmeta : ∀ r ∈ records,
      (∃ p ∈ r, p.1 = "file_name") ∧ (∃ p ∈ r, p.1 = "processed_date")) :
    assembledColumns records fields
      = "File Name"
          :: (fields.filter (fun f =>
                decide (f.column_name ∈ displayColumns records fields))).map
              (fun f => f.column_name)
          ++ ["Processed Date"]
    ∧ (g.column_name ∈ displayColumns records fields
        ↔ ∃ r ∈ records, ∃ p ∈ r, renameCol fields p.1 = g.column_name) := by
  constructor
  · rw [assembledColumns]
    apply List.filter_eq_self.mpr
    intro a ha
    rw [decide_eq_true_eq]
    rcases List.mem_cons.mp ha with rfl | ha
    · cases records with
      | nil => exact absurd rfl hne
      | cons r rs =>
        rcases (hmeta r (List.mem_cons_self r rs)).1 with ⟨p, hp, hp1⟩
        exact (mem_displayColumns _ fields _).mpr
          ⟨r, List.mem_cons_self r rs, p, hp,
            by rw [hp1, renameCol_file_name]⟩
    · rcases List.mem_append.mp ha with ha | ha
      · rcases List.mem_map.mp ha with ⟨fd, hfd, rfl⟩
        have h := List.of_mem_filter hfd
        rwa [decide_eq_true_eq] at h
      · rw [List.mem_singleton.mp ha]
        cases records with
        | nil => exact absurd rfl hne
        | cons r rs =>
          rcases (hmeta r (List.mem_cons_self r rs)).2 with ⟨p, hp, hp1⟩
          exact (mem_displayColumns _ fields _).mpr
            ⟨r, List.mem_cons_self r rs, p, hp,
              by rw [hp1, renameCol_processed_date]⟩
  · exact mem_displayColumns records fields g.column_name

/-- The one-record result set used by the column-order witness. -/
def recordsW : List JObj :=
  [[("file_name", JValue.str "a.pdf"), ("full_name", JValue.str "Bob"),
    ("processed_date", JValue.str "T")]]

/-- A two-field schema whose second field occurs in no record. -/
def fieldsW : List FieldDef :=
  [fullNameField, ⟨"phone", "Phone number of the candidate", "Phone"⟩]

/-- Claim C2 (witness). The assembled columns of a concrete result set:
the Phone column, absent from every record, is omitted; File Name is
first and Processed Date last. -/
theorem claim_C2_witness :
    assembledColumns recordsW fieldsW
      = ["File Name", "Full Name", "Processed Date"] := by
  have h := claim_C2_column_order recordsW fieldsW fullNameField
    (by rw [recordsW]; simp) (by decide)
  rw [h.1]
  rfl

/-- Claim C5. Parsing is idempotent on the already-stripped form: for a
raw text x that is a JSON object payload b surrounded by a leading fence
marker (json-tagged, or generic with the payload not starting with the
json tag) and a closing fence, parse(strip(x)) = parse(x), strip being
the code's whitespace-strip followed by fence removal. The payload is
taken flush against the delimiters (no surrounding whitespace of its
own) and not itself fence-like. -/
theorem claim_C5_parse_idempotent (x b : List Char)
    (hx : x = "```json".data ++ b ++ "```".data ∨
          (x = "```".data ++ b ++ "```".data
            ∧ "json".data.isPrefixOf (b ++ "```".data) = false))
    (hb : trimWs b = b)
    (hp : "```".data.isPrefixOf b = false) :
    parseResponse (stripFence x) = parseResponse x := by
  have hstrip : stripFence x = b := by
    rcases hx with hx | ⟨hx, h2⟩
    · have hx2 : x = "```".data ++ ("json".data ++ b) ++ "```".data := by
        rw [hx, fenceJson_eq]
        simp [List.append_assoc]
      have htrim : trimWs x = x := by
        rw [hx2]; exact trimWs_fence_wrapped _
      rw [stripFence, htrim, hx]
      exact cleanJsonText_json_fenced b
    · have htrim : trimWs x = x := by
        rw [hx]; exact trimWs_fence_wrapped b
      rw [stripFence, htrim, hx]
      exact cleanJsonText_generic_fenced b h2
  have hsb : stripFence b = b := by
    rw [stripFence, hb]
    exact cleanJsonText_not_fenced b hp
  rw [hstrip]
  show parseResponse b = parseResponse x
  rw [parseResponse, parseResponse, hstrip, hsb]

/-- Claim C5 (witness). The idempotence applied to the concrete
json-tagged fence-wrapped object. -/
theorem claim_C5_witness :
    parseResponse (stripFence
        ("```json".data ++ "\x7b\"a\":1\x7d".data ++ "```".data))
      = parseResponse
        ("```json".data ++ "\x7b\"a\":1\x7d".data ++ "```".data) :=
  claim_C5_parse_idempotent _ "\x7b\"a\":1\x7d".data (Or.inl rfl)
    (by decide) (by decide)

/-- Claim C7. For a non-empty schema the prompt is exactly a fixed
header, then one instruction line per field — "- field_name:
description", in schema order, newline-separated — then the fixed policy
instructions, then the resume text verbatim, then the fixed response
cue. Determinism and purity are definitional: promptOf is a function of
the schema and the text alone. -/
theorem claim_C7_prompt (fields : List FieldDef) (resume_text : String)
    (h : fields ≠ []) :
    promptOf fields resume_text
      = promptHeaderStr ++ String.intercalate "\n" (fields.map fieldLine)
        ++ promptMidStr ++ resume_text ++ promptFooterStr := by
  cases fields with
  | nil => exact absurd rfl h
  | cons f fs => rw [promptOf, build_dynamic_prompt]; rfl

/-- Claim C7 (witness). The prompt shape at a concrete one-field schema
and resume text. -/
theorem claim_C7_witness :
    promptOf [⟨"full_name", "Full name of the candidate", "Full Name"⟩]
        "RESUME TEXT"
      = promptHeaderStr
        ++ String.intercalate "\n"
            ([(⟨"full_name", "Full name of the candidate", "Full Name"⟩ :
                FieldDef)].map fieldLine)
        ++ promptMidStr ++ "RESUME TEXT" ++ promptFooterStr :=
  claim_C7_prompt _ _ (by decide)

/-- Claim C6. PDF extraction returns the concatenation of every page's
text in page order with no separator, and fails as a whole — no partial
text — as soon as any page's text cannot be extracted. -/
theorem claim_C6_pdf_concat :
    (∀ texts : List String,
      extract_text_from_pdf (texts.map some) = some (String.join texts))
    ∧ ∀ pages : List (Option String), none ∈ pages →
        extract_text_from_pdf pages = none := by
  constructor
  · intro texts
    have h := foldl_pdfStep_map_some texts ""
    simpa [extract_text_from_pdf, String.join] using h
  · intro pages h
    exact foldl_pdfStep_mem_none pages (some "") h

/-- Claim C6 (witness). Two readable pages concatenate with no
separator; one unreadable page fails the whole document. -/
theorem claim_C6_witness :
    extract_text_from_pdf [some "ab", some "cd"] = some (String.join ["ab", "cd"])
    ∧ extract_text_from_pdf [some "ab", none] = none :=
  ⟨claim_C6_pdf_concat.1 ["ab", "cd"],
   claim_C6_pdf_concat.2 [some "ab", none] (by decide)⟩

/-- Claim C10. The annotation step sets exactly file_name (to the
originating filename) and processed_date (to the supplied timestamp
string), overwriting whatever the service returned under those two keys,
and leaves the lookup of every other key of the parsed mapping
unchanged. The timestamp value itself (wall clock, second resolution)
is an input of the model. -/
theorem claim_C10_annotate_frame (d : JObj) (name ts k : String)
    (h1 : k ≠ "file_name") (h2 : k ≠ "processed_date") :
    dictGet? (annotate d name ts) "file_name" = some (JValue.str name)
    ∧ dictGet? (annotate d name ts) "processed_date" = some (JValue.str ts)
    ∧ dictGet? (annotate d name ts) k = dictGet? d k := by
  refine ⟨?_, ?_, ?_⟩
  · rw [annotate, dictGet?_dictSet_ne _ _ _ _ (by decide)]
    exact dictGet?_dictSet_self _ _ _
  · exact dictGet?_dictSet_self _ _ _
  · rw [annotate, dictGet?_dictSet_ne _ _ _ _ h2]
    exact dictGet?_dictSet_ne _ _ _ _ h1

/-- Claim C10 (witness). The frame property at a concrete parsed
mapping that already carries a stale file_name from the service: both
meta keys are overwritten and the data key is untouched. -/
theorem claim_C10_witness :
    dictGet? (annotate [("full_name", JValue.str "Bob"),
        ("file_name", JValue.str "stale")] "resume.pdf" "2025-01-01 00:00:00")
        "file_name" = some (JValue.str "resume.pdf")
    ∧ dictGet? (annotate [("full_name", JValue.str "Bob"),
        ("file_name", JValue.str "stale")] "resume.pdf" "2025-01-01 00:00:00")
        "processed_date" = some (JValue.str "2025-01-01 00:00:00")
    ∧ dictGet? (annotate [("full_name", JValue.str "Bob"),
        ("file_name", JValue.str "stale")] "resume.pdf" "2025-01-01 00:00:00")
        "full_name"
      = dictGet? [("full_name", JValue.str "Bob"),
        ("file_name", JValue.str "stale")] "full_name" :=
  claim_C10_annotate_frame
    [("full_name", JValue.str "Bob"), ("file_name", JValue.str "stale")]
    "resume.pdf" "2025-01-01 00:00:00" "full_name" (by decide) (by decide)

end CV2CSV
